import Mathlib

/-
Verification of the arbnumbra test-case generator/verifier (src/arbnumbra.py)
against its natural-language specification.

The Python program is shallowly embedded below.  The process-wide decimal
context precision (`decimal.getcontext().prec`) is made explicit: every
function that reads or writes it takes the current precision as an argument
and returns the precision it leaves behind.  An unhandled Python exception
(decimal.InvalidOperation from the Decimal constructor, ValueError from
int()) is modelled as `none`.
-/

namespace Arbnumbra

/-- Model of a finite Python `Decimal`: sign (true = negative, kept separately
so that negative zero is representable), coefficient and exponent, denoting
the value `(-1)^sign * coeff * 10^exp`.  Non-finite decimals (Infinity, NaN)
never arise in this program: every string it passes to the constructor
contains a '.', which no Infinity/NaN word form matches. -/
structure DecF where
  sign : Bool
  coeff : Nat
  exp : Int
deriving Repr, DecidableEq

/-- Numeric value of a digit character ('0' has code point 48). -/
def digitVal (c : Char) : Nat := c.toNat - 48

/-- Value of a most-significant-first digit string. -/
def natOfDigits (l : List Char) : Nat := l.foldl (fun a c => a * 10 + digitVal c) 0

/-- Fuelled helper for `numDigits` (the fuel is always sufficient: `numDigits n`
calls it with fuel `n`, and the digit count of `n` is at most `n` for `n ≥ 1`). -/
def numDigitsCore : Nat → Nat → Nat
  | 0, _ => 1
  | fuel + 1, n => if n < 10 then 1 else numDigitsCore fuel (n / 10) + 1

/-- Number of decimal digits of a coefficient, counting `0` as one digit,
matching the length of a Python `Decimal` coefficient (which never has
leading zeros). -/
def numDigits (n : Nat) : Nat := numDigitsCore n n

/-- Fuelled helper for `natToDigits`. -/
def natToDigitsCore : Nat → Nat → List Char → List Char
  | 0, _, acc => acc
  | fuel + 1, n, acc =>
    if n < 10 then Char.ofNat (48 + n) :: acc
    else natToDigitsCore fuel (n / 10) (Char.ofNat (48 + n % 10) :: acc)

/-- Decimal digit string of a natural number, most significant digit first,
`0` rendered as "0". -/
def natToDigits (n : Nat) : List Char := natToDigitsCore n n []

/-- Division of `n` by `d` rounded half-to-even (banker's rounding), the
rounding used both by `Decimal` arithmetic and by `Decimal.__format__` under
the default context, which this program never changes. -/
def rhed (n d : Nat) : Nat :=
  let q := n / d
  let r := n % d
  if 2 * r < d then q
  else if d < 2 * r then q + 1
  else if q % 2 = 0 then q else q + 1

/-- Rounding of a `Decimal` result to `prec` significant digits, as Python
decimal arithmetic does when a result's coefficient is longer than the
context precision: drop the excess digits rounding half-to-even, and if the
round-up carries into an extra digit (e.g. 9.95 at 2 digits becoming 10.0),
drop the now-trailing zero.  Exact (unchanged) when the coefficient already
fits. -/
def roundSig (prec : Nat) (d : DecF) : DecF :=
  if numDigits d.coeff ≤ prec then d
  else
    let shift := numDigits d.coeff - prec
    let c := rhed d.coeff (10 ^ shift)
    if numDigits c ≤ prec then ⟨d.sign, c, d.exp + shift⟩
    else ⟨d.sign, c / 10, d.exp + shift + 1⟩

/-- Model of Python `Decimal` multiplication under a context with precision
`prec`: exact product (signs xor, coefficients multiply, exponents add),
rounded to `prec` significant digits.  Python triggers the rounding on the
literal coefficient length of the exact product, which can include trailing
zeros contributed by a factor; dropping trailing zeros is value-preserving
and half-to-even rounding is value-determined, so rounding the trailing-zero-
free coefficient, as done here, yields the same value, and every later use
(formatting) depends only on value and sign. -/
def decMul (prec : Nat) (x y : DecF) : DecF :=
  roundSig prec ⟨xor x.sign y.sign, x.coeff * y.coeff, x.exp + y.exp⟩

/-- Model of `Decimal(10) ** Decimal(e)`: the value is exactly `10^e` (one
significant digit, hence exact under any context precision ≥ 1), here
represented with coefficient 1.  The model omits the context's Emax/Emin
magnitude limits (±999999), beyond which Python would raise Overflow; no
input considered here comes near them. -/
def pow10 (e : Int) : DecF := ⟨false, 1, e⟩

/-- Left-pad a digit string with '0' to the given length. -/
def padLeft (s : List Char) (len : Nat) : List Char :=
  List.replicate (len - s.length) '0' ++ s

/-- Coefficient of a `Decimal` value rescaled to exponent `-p` under
round-half-to-even: pad with zeros when the exponent is at least `-p`,
otherwise divide away the excess digits with banker's rounding. -/
def rescaleCoeff (d : DecF) (p : Nat) : Nat :=
  if -(p : Int) ≤ d.exp then d.coeff * 10 ^ (d.exp + p).toNat
  else rhed d.coeff (10 ^ (-(p : Int) - d.exp).toNat)

/-- Digit string of the rescaled coefficient, left-padded so at least one
digit precedes the decimal point. -/
def paddedDigits (d : DecF) (p : Nat) : List Char :=
  padLeft (natToDigits (rescaleCoeff d p)) (p + 1)

/-- Sign prefix of the rendering ('-' also for negative zero, as Python). -/
def signChars (d : DecF) : List Char := if d.sign then ['-'] else []

/-- Model of `f"{number:.{p}f}"` on a finite `Decimal`.  Python's
`Decimal.__format__` rescales the value to exponent `-p` using the current
context's rounding mode — always ROUND_HALF_EVEN here, since the program
never changes it — and does NOT consult the context precision.  With `p = 0`
no decimal point is emitted. -/
def formatFixed (d : DecF) (p : Nat) : String :=
  if p = 0 then String.mk (signChars d ++ paddedDigits d p)
  else
    String.mk (signChars d ++
      (paddedDigits d p).take ((paddedDigits d p).length - p) ++
      '.' :: (paddedDigits d p).drop ((paddedDigits d p).length - p))

/-- Model of Python `str.rstrip('0')` on the character list. -/
def rstripZeros (l : List Char) : List Char :=
  (l.reverse.dropWhile (fun c => c == '0')).reverse

/-- Model of `NumberGenerator._remove_trailing_zeros`: strip trailing '0'
characters; if the result then ends in '.', append a single '0'. -/
def removeTrailingZeros (s : String) : String :=
  if (rstripZeros s.toList).getLast? = some '.' then
    String.mk (rstripZeros s.toList ++ ['0'])
  else String.mk (rstripZeros s.toList)

/-- Helper for `pyInt`: digits already begun, allowing single '_' separators
between digits as Python `int()` does. -/
def pyIntCore : Nat → List Char → Option Nat
  | acc, [] => some acc
  | acc, '_' :: c :: rest =>
      if c.isDigit then pyIntCore (acc * 10 + digitVal c) rest else none
  | acc, c :: rest =>
      if c.isDigit then pyIntCore (acc * 10 + digitVal c) rest else none

/-- Whitespace as stripped by Python's `int()` and by the `Decimal`
numeric-string grammar (ASCII; non-ASCII whitespace never occurs here). -/
def isPyWs (c : Char) : Bool :=
  c == ' ' || c == '\t' || c == '\n' || c == '\r' || c == '\x0b' || c == '\x0c'

/-- Strip `isPyWs` characters from both ends. -/
def trimWs (l : List Char) : List Char :=
  ((l.dropWhile isPyWs).reverse.dropWhile isPyWs).reverse

/-- Model of Python `int(str)` on a character list: optional surrounding
whitespace, an optional sign, then at least one decimal digit, with single
underscores permitted between digits.  `none` models the ValueError raised
otherwise.  (Python also accepts non-ASCII digits; none occur here.) -/
def pyInt (l : List Char) : Option Int :=
  let t := trimWs l
  let signAndRest : Bool × List Char :=
    match t with
    | '+' :: r => (false, r)
    | '-' :: r => (true, r)
    | r => (false, r)
  match signAndRest.2 with
  | [] => none
  | c :: cs =>
    if c.isDigit then
      (pyIntCore (digitVal c) cs).map
        (fun n => if signAndRest.1 then -(n : Int) else (n : Int))
    else none

/-- Model of the Python `Decimal(string)` constructor on finite numeric
strings: underscores are removed anywhere, surrounding whitespace is ignored,
then the remainder must be `sign? (digits ('.' digits?)? | '.' digits)`;
`none` models the InvalidOperation raised otherwise.  The full grammar also
admits an exponent suffix and Infinity/NaN word forms; every string this
program passes to the constructor is `integer_part ++ "." ++ fractional_part`
where the parts come from an already-lowercased string split on 'e', so it
always contains a '.' and never an exponent marker — on that domain the word
forms never match and the exponent branch is dead, so both are omitted. -/
def decFromString (s : String) : Option DecF :=
  let t := trimWs (s.toList.filter (fun c => !(c == '_')))
  let signAndRest : Bool × List Char :=
    match t with
    | '+' :: r => (false, r)
    | '-' :: r => (true, r)
    | r => (false, r)
  let rest := signAndRest.2
  let intDigits := rest.takeWhile Char.isDigit
  let rest1 := rest.dropWhile Char.isDigit
  match rest1 with
  | [] =>
    if intDigits.isEmpty then none
    else some ⟨signAndRest.1, natOfDigits intDigits, 0⟩
  | '.' :: r2 =>
    let fracDigits := r2.takeWhile Char.isDigit
    let rest2 := r2.dropWhile Char.isDigit
    if rest2.isEmpty ∧ ¬(intDigits.isEmpty ∧ fracDigits.isEmpty) then
      some ⟨signAndRest.1, natOfDigits (intDigits ++ fracDigits),
        -(fracDigits.length : Int)⟩
    else none
  | _ => none

/-- Split a character list on a separator character, as Python
`str.split(sep)` with a one-character separator: always returns at least one
(possibly empty) part, with empty parts between adjacent separators. -/
def splitOnChar (sep : Char) : List Char → List (List Char)
  | [] => [[]]
  | c :: rest =>
    match splitOnChar sep rest with
    | [] => [[]]
    | h :: t => if c == sep then [] :: h :: t else (c :: h) :: t

/-- Lowercasing as in `num_str.lower()` (ASCII letters; no non-ASCII letters
occur in the inputs considered). -/
def lowerChars (l : List Char) : List Char := l.map Char.toLower

/-- Result of `NumberParser.parse`. -/
structure Parsed where
  integer_part : String
  fractional_part : String
  exponent : Int
deriving Repr, DecidableEq

/-- Model of `NumberParser.parse`: lowercase, split on 'e'; the exponent is
`int(parts[1])` when a marker is present (parts beyond the second are
silently dropped), else 0; the mantissa `parts[0]` is split on '.' into
integer and fractional parts (parts beyond the second silently dropped).
`none` models the ValueError from `int(parts[1])`. -/
def parse (num_str : String) : Option Parsed :=
  let parts := splitOnChar 'e' (lowerChars num_str.toList)
  let eo : Option Int :=
    match parts with
    | _ :: p1 :: _ => pyInt p1
    | _ => some 0
  match eo with
  | none => none
  | some e =>
    let mparts := splitOnChar '.' (parts.headD [])
    some ⟨String.mk (mparts.headD []), String.mk ((mparts.drop 1).headD []), e⟩

/-- Model of the `TestCase` dataclass. -/
structure TestCase where
  num_str : String
  precision : Nat
  expected : String
  radix : Option Int
  base : Option Int
deriving Repr, DecidableEq

/-- Model of `TestCaseGenerator._calculate_number`: builds the string
`integer_part + "." + fractional_part`, constructs a `Decimal` from it
(exact), and multiplies by `Decimal(10) ** Decimal(exponent)` — at `ctx`,
the context precision currently in force, i.e. whatever the previous
operation left behind.  `none` models the InvalidOperation raised by the
constructor on a malformed string. -/
def calculate_number (ctx : Nat) (p : Parsed) : Option DecF :=
  (decFromString (p.integer_part ++ "." ++ p.fractional_part)).map
    (fun m => decMul ctx m (pow10 p.exponent))

/-- Model of `TestCaseGenerator._format_number`: sets
`getcontext().prec = precision + max(exponent, 0) + 1` (returned as the new
context precision), formats the number to `precision` fractional digits
(formatting itself ignores the context precision) and strips trailing
zeros. -/
def format_number (number : DecF) (precision : Nat) (exponent : Int) : Nat × String :=
  (precision + (max exponent 0).toNat + 1,
   removeTrailingZeros (formatFixed number precision))

/-- Model of `TestCaseGenerator.generate` with the process-wide context
precision made explicit: takes the precision in force at call time, returns
the precision left behind together with the record.  `none` models an
unhandled exception (ValueError in parsing or InvalidOperation in the
Decimal constructor).  Note the order: `_calculate_number` (the multiply)
runs first, at the incoming context precision; only then does
`_format_number` set the context precision. -/
def generate (ctx : Nat) (num_str : String) (precision : Nat)
    (radix : Option Int) (base : Option Int) : Option (Nat × TestCase) :=
  (parse num_str).bind (fun p =>
    (calculate_number ctx p).bind (fun number =>
      some ((format_number number precision p.exponent).1,
        ⟨num_str, precision, (format_number number precision p.exponent).2,
          radix, base⟩)))

/-- Model of `TestCaseVerifier.verify`: re-generates each record from its
stored input fields in order (threading the context precision through the
re-generations), compares stored and recomputed expected strings by exact
string equality, and records one pass/fail verdict per record, never
stopping at a mismatch.  Python prints PASS/FAIL lines; the verdicts are
collected in a list here.  `none` models a crash of the whole loop (a
re-generation raised). -/
def verify (ctx : Nat) : List TestCase → Option (Nat × List Bool)
  | [] => some (ctx, [])
  | tc :: rest =>
    (generate ctx tc.num_str tc.precision tc.radix tc.base).bind (fun pr =>
      (verify pr.1 rest).bind (fun pr2 =>
        some (pr2.1, (tc.expected == pr.2.expected) :: pr2.2)))

/-- Context precision in force when the `i`-th record of a batch is
re-generated: the precisions left behind by the `i` preceding
re-generations, starting from `ctx`. -/
def ctxAt (ctx : Nat) : List TestCase → Nat → Option Nat
  | _, 0 => some ctx
  | [], _ + 1 => none
  | tc :: rest, i + 1 =>
    (generate ctx tc.num_str tc.precision tc.radix tc.base).bind
      (fun pr => ctxAt pr.1 rest i)

/-- Sequential generation of a list of (literal, precision) inputs threading
the context precision, as the `SpecialCaseGenerator` list comprehensions do;
`none` models a crash of the comprehension (one generation raised). -/
def generateList (ctx : Nat) : List (String × Nat) → Option (Nat × List TestCase)
  | [] => some (ctx, [])
  | (s, p) :: rest =>
    (generate ctx s p none none).bind (fun pr =>
      (generateList pr.1 rest).bind (fun pr2 =>
        some (pr2.1, pr.2 :: pr2.2)))

/-- Model of `SpecialCaseGenerator.generate_special_cases`: the three
non-finite sentinel literals, each at precision 0. -/
def generate_special_cases (ctx : Nat) : Option (Nat × List TestCase) :=
  generateList ctx [("CUSTOM_INFINITY", 0), ("-CUSTOM_INFINITY", 0), ("CUSTOM_NAN", 0)]

/-- The fixed 51-digit pi literal of `SpecialCaseGenerator`. -/
def piLiteral : String := "3.14159265358979323846264338327950288419716939937510"

/-- Model of `SpecialCaseGenerator.generate_pi_approximations`: the pi
literal generated at every precision from 1 to `count`. -/
def generate_pi_approximations (ctx : Nat) (count : Nat) : Option (Nat × List TestCase) :=
  generateList ctx ((List.range count).map (fun i => (piLiteral, i + 1)))

/-- Python's default decimal context precision, in force in a fresh process
before any `_format_number` call has run. -/
def defaultPrec : Nat := 28

/-- Modelled from the spec (section 4.2): the rescale with the working
context set to `requested_precision + max(exponent, 0) + 1` BEFORE the
multiply-by-power-of-ten step, as the specification prescribes — in contrast
to `generate`, whose multiply runs at the incoming context precision.
Returns the expected string only. -/
def generate_specOrder (num_str : String) (precision : Nat) : Option String :=
  (parse num_str).bind (fun p =>
    (calculate_number (precision + (max p.exponent 0).toNat + 1) p).map
      (fun number => removeTrailingZeros (formatFixed number precision)))

/-- Modelled from the claim C9 wording: re-render a previously produced
expected string at `p` fractional digits under round-half-to-even (with the
same trailing-zero stripping the records themselves undergo), for comparing
a higher-precision pi record against a lower-precision one. -/
def specRoundFrac (s : String) (p : Nat) : Option String :=
  (decFromString s).map (fun d => removeTrailingZeros (formatFixed d p))

/-! Helper lemmas. -/

theorem toList_mk (l : List Char) : (String.mk l).toList = l := rfl

theorem roundSig_eq_self (prec : Nat) (d : DecF) (h : numDigits d.coeff ≤ prec) :
    roundSig prec d = d := by
  unfold roundSig
  rw [if_pos h]

theorem charOfNat_digit_isDigit (k : Nat) (hk : k < 10) : (Char.ofNat (48 + k)).isDigit := by
  interval_cases k <;> decide

theorem natToDigitsCore_isDigit (fuel : Nat) :
    ∀ (n : Nat) (acc : List Char), (∀ c ∈ acc, c.isDigit) →
      ∀ c ∈ natToDigitsCore fuel n acc, c.isDigit := by
  induction fuel with
  | zero => intro n acc hacc c hc; exact hacc c hc
  | succ fuel ih =>
    intro n acc hacc c hc
    unfold natToDigitsCore at hc
    by_cases hn : n < 10
    · rw [if_pos hn] at hc
      rcases List.mem_cons.mp hc with hc | hc
      · rw [hc]; exact charOfNat_digit_isDigit n hn
      · exact hacc c hc
    · rw [if_neg hn] at hc
      refine ih (n / 10) _ ?_ c hc
      intro d hd
      rcases List.mem_cons.mp hd with hd | hd
      · rw [hd]; exact charOfNat_digit_isDigit (n % 10) (Nat.mod_lt _ (by omega))
      · exact hacc d hd

theorem natToDigits_isDigit (n : Nat) : ∀ c ∈ natToDigits n, c.isDigit :=
  natToDigitsCore_isDigit n n [] (by intro c hc; cases hc)

theorem padLeft_isDigit (s : List Char) (len : Nat) (hs : ∀ c ∈ s, c.isDigit) :
    ∀ c ∈ padLeft s len, c.isDigit := by
  intro c hc
  unfold padLeft at hc
  rcases List.mem_append.mp hc with hc | hc
  · rw [List.eq_of_mem_replicate hc]; decide
  · exact hs c hc

theorem padLeft_le_length (s : List Char) (len : Nat) : len ≤ (padLeft s len).length := by
  unfold padLeft
  rw [List.length_append, List.length_replicate]
  omega

theorem paddedDigits_isDigit (d : DecF) (p : Nat) :
    ∀ c ∈ paddedDigits d p, c.isDigit :=
  padLeft_isDigit _ _ (natToDigits_isDigit _)

theorem paddedDigits_le_length (d : DecF) (p : Nat) :
    p + 1 ≤ (paddedDigits d p).length :=
  padLeft_le_length _ _

theorem isDigit_ne_dot (c : Char) (h : c.isDigit) : c ≠ '.' := by
  intro he
  subst he
  exact absurd h (by decide)

theorem isDigit_beq_zero_char (c : Char) (h : (c == '0') = false) : c ≠ '0' := by
  intro he
  subst he
  simp at h

/-- Shape of the fixed-point rendering at precision at least 1: a run of
sign/digit characters, a single '.', then exactly `p` digits. -/
theorem formatFixed_shape (d : DecF) (p : Nat) (hp : 1 ≤ p) :
    ∃ a f, (formatFixed d p).toList = a ++ '.' :: f ∧
      (∀ c ∈ a, c.isDigit ∨ c = '-') ∧ (∀ c ∈ f, c.isDigit) ∧ f.length = p := by
  have hdig := paddedDigits_isDigit d p
  have hlen := paddedDigits_le_length d p
  refine ⟨signChars d ++ (paddedDigits d p).take ((paddedDigits d p).length - p),
    (paddedDigits d p).drop ((paddedDigits d p).length - p), ?_, ?_, ?_, ?_⟩
  · unfold formatFixed
    rw [if_neg (by omega), toList_mk, List.append_assoc]
  · intro ch hch
    rcases List.mem_append.mp hch with hch | hch
    · right
      unfold signChars at hch
      cases hsg : d.sign <;> rw [hsg] at hch <;> simp_all
    · exact Or.inl (hdig ch ((List.take_sublist _ _).subset hch))
  · intro ch hch
    exact hdig ch ((List.drop_sublist _ _).subset hch)
  · rw [List.length_drop]
    omega

theorem dropWhile_append_not (p : Char → Bool) (c : Char) (hc : p c = false)
    (l₁ l₂ : List Char) :
    (l₁ ++ c :: l₂).dropWhile p = l₁.dropWhile p ++ c :: l₂ := by
  induction l₁ with
  | nil => simp [List.dropWhile, hc]
  | cons d l₁ ih =>
    rw [List.cons_append, List.dropWhile_cons, List.dropWhile_cons]
    cases hpd : p d
    · simp
    · simpa using ih

theorem head?_dropWhile_false (p : Char → Bool) :
    ∀ (l : List Char) (c : Char), (l.dropWhile p).head? = some c → p c = false := by
  intro l
  induction l with
  | nil => intro c hc; cases hc
  | cons d l ih =>
    intro c hc
    rw [List.dropWhile_cons] at hc
    by_cases hpd : p d
    · rw [if_pos hpd] at hc; exact ih c hc
    · rw [if_neg hpd] at hc
      cases hc
      simpa using hpd

/-- Stripping trailing zeros never crosses a '.': it only shortens the part
after the final '.'. -/
theorem rstripZeros_append_dot (a f : List Char) :
    rstripZeros (a ++ '.' :: f) = a ++ '.' :: rstripZeros f := by
  unfold rstripZeros
  rw [List.reverse_append, List.reverse_cons, List.append_assoc, List.singleton_append]
  rw [dropWhile_append_not _ '.' (by decide)]
  simp

theorem rstripZeros_last (f : List Char) (c : Char)
    (h : (rstripZeros f).getLast? = some c) : (c == '0') = false := by
  unfold rstripZeros at h
  rw [List.getLast?_reverse] at h
  exact head?_dropWhile_false (fun ch => ch == '0') f.reverse c h

theorem rstripZeros_subset (f : List Char) : rstripZeros f ⊆ f := by
  intro c hc
  unfold rstripZeros at hc
  rw [List.mem_reverse] at hc
  have := (List.dropWhile_sublist (l := f.reverse) (p := fun ch => ch == '0')).subset hc
  rwa [List.mem_reverse] at this

theorem mem_of_getLast?_eq (l : List Char) (c : Char) (h : l.getLast? = some c) :
    c ∈ l := by
  obtain ⟨hne, rfl⟩ := List.mem_getLast?_eq_getLast (Option.mem_def.mpr h)
  exact List.getLast_mem hne

/-- Effect of `_remove_trailing_zeros` on a string of the form
`a ++ "." ++ digits`: the part before the '.' is untouched, and the part
after it becomes a nonempty digit string that is either the single padding
digit "0" or does not end in '0'. -/
theorem removeTrailingZeros_shape (s : String) (a f : List Char)
    (hs : s.toList = a ++ '.' :: f) (hf : ∀ c ∈ f, c.isDigit) :
    ∃ g, (removeTrailingZeros s).toList = a ++ '.' :: g ∧
      g ≠ [] ∧ (g = ['0'] ∨ g.getLast? ≠ some '0') ∧ (∀ c ∈ g, c.isDigit) := by
  have hstrip : rstripZeros s.toList = a ++ '.' :: rstripZeros f := by
    rw [hs, rstripZeros_append_dot]
  unfold removeTrailingZeros
  rw [hstrip]
  rcases hempty : rstripZeros f with _ | ⟨c0, rest⟩
  · rw [List.getLast?_append_cons]
    rw [if_pos (show (['.'] : List Char).getLast? = some '.' from rfl)]
    refine ⟨['0'], ?_, by simp, Or.inl rfl, by decide⟩
    simp [toList_mk, List.append_assoc]
  · have hcl : ∃ cl, (c0 :: rest : List Char).getLast? = some cl := by
      cases h : (c0 :: rest : List Char).getLast? with
      | none => rw [List.getLast?_eq_none_iff] at h; cases h
      | some cl => exact ⟨cl, rfl⟩
    obtain ⟨cl, hcl⟩ := hcl
    have hclf : cl ∈ f :=
      rstripZeros_subset f (hempty ▸ mem_of_getLast?_eq _ _ hcl)
    have hcld : cl.isDigit := hf cl hclf
    rw [List.getLast?_append_cons, List.getLast?_cons_cons, hcl]
    rw [if_neg (by
      intro hcontra
      injection hcontra with hcontra2
      exact isDigit_ne_dot cl hcld hcontra2)]
    refine ⟨c0 :: rest, toList_mk _, by simp, Or.inr ?_, ?_⟩
    · rw [hcl]
      intro hcontra
      injection hcontra with hcontra2
      have := rstripZeros_last f cl (hempty ▸ hcl)
      exact isDigit_beq_zero_char cl this hcontra2
    · intro c hc
      exact hf c (rstripZeros_subset f (hempty ▸ hc))

/-! Claim theorems. -/

/-- Claim C1.  The Case Generator is NOT a pure function of
`(num_str, precision, radix, base)`: the multiply in `_calculate_number`
runs at whatever context precision the previous call left behind, so the
same input `("1.2345", 2)` yields expected "1.23" under the fresh-process
context precision 28 but "1.0" under context precision 1 — and precision 1
is exactly what a prior `generate("7", 0, ...)` call leaves behind. -/
theorem c1_not_pure :
    (generate 28 "1.2345" 2 none none).map (fun r => r.2.expected) = some "1.23" ∧
    (generate 1 "1.2345" 2 none none).map (fun r => r.2.expected) = some "1.0" ∧
    (generate 28 "7" 0 none none).map (fun r => r.1) = some 1 := by
  refine ⟨by decide, by decide, by decide⟩

/-- Claim C2.  The working precision is set AFTER the multiply-by-power-of-
ten step, not before it: with the context precision at 1 (as left by a prior
`generate("7", 0, ...)`), `generate("1.2345e2", 3, ...)` multiplies at
precision 1 and returns "100.0", whereas performing the multiply at the
claimed working precision `3 + max(2, 0) + 1 = 6` (as `generate_specOrder`,
modelled from the spec, does) returns "123.45". -/
theorem c2_precision_set_after_multiply :
    (generate 1 "1.2345e2" 3 none none).map (fun r => r.2.expected) = some "100.0" ∧
    generate_specOrder "1.2345e2" 3 = some "123.45" ∧
    (generate 28 "7" 0 none none).map (fun r => r.1) = some 1 := by
  refine ⟨by decide, by decide, by decide⟩

/-- Claim C3.  A freshly generated record does NOT always re-verify as Pass:
generating the 51-digit pi literal at precision 40 from the fresh-process
context (precision 28) yields a 27-fractional-digit expected string and
leaves the context precision at 41; re-running the generator on the record's
own fields (as `verify` does) then re-multiplies at precision 41, produces a
40-fractional-digit string, and the byte-for-byte comparison fails. -/
theorem c3_roundtrip_fails :
    generate 28 piLiteral 40 none none =
      some (41, ⟨piLiteral, 40, "3.141592653589793238462643383", none, none⟩) ∧
    (verify 41 [⟨piLiteral, 40, "3.141592653589793238462643383", none, none⟩]).map
      (fun r => r.2) = some [false] := by
  refine ⟨by decide, by decide⟩

/-- Claim C4, counterexample.  At precision 0 the fixed-point rendering has
no decimal point, so `rstrip('0')` eats trailing zeros of the INTEGER part:
`generate("100", 0, ...)` returns expected "1" (integer part altered, no
'.' at all), and `generate("0", 0, ...)` returns the empty string. -/
theorem c4_precision_zero_counterexample :
    generate 28 "100" 0 none none = some (1, ⟨"100", 0, "1", none, none⟩) ∧
    generate 28 "0" 0 none none = some (1, ⟨"0", 0, "", none, none⟩) ∧
    '.' ∉ ("1" : String).toList ∧ ("" : String).toList = [] := by
  refine ⟨by decide, by decide, by decide, by decide⟩

/-- Claim C4, amended: for precisions p ≥ 1 (and any context precision, any
input on which generation succeeds), the expected string is the integer part
of the p-digit rendering, unaltered, followed by '.' and a nonempty digit
string that is either the sole padding digit "0" or does not end in '0'. -/
theorem c4_trailing_zero_form (ctx : Nat) (s : String) (p : Nat) (r b : Option Int)
    (ctx2 : Nat) (tc : TestCase) (hp : 1 ≤ p)
    (h : generate ctx s p r b = some (ctx2, tc)) :
    ∃ P num a f g, parse s = some P ∧ calculate_number ctx P = some num ∧
      (formatFixed num p).toList = a ++ '.' :: f ∧ f.length = p ∧
      (∀ c ∈ a, c ≠ '.') ∧
      tc.expected.toList = a ++ '.' :: g ∧ g ≠ [] ∧
      (g = ['0'] ∨ g.getLast? ≠ some '0') ∧ (∀ c ∈ g, c.isDigit) := by
  unfold generate at h
  obtain ⟨P, hP, h⟩ := Option.bind_eq_some.mp h
  obtain ⟨num, hnum, h⟩ := Option.bind_eq_some.mp h
  have hexp : tc.expected = removeTrailingZeros (formatFixed num p) := by
    have h2 := congrArg (fun x => x.2.expected) (Option.some.inj h)
    simp only [format_number] at h2
    exact h2.symm
  obtain ⟨a, f, hfmt, ha, hf, hflen⟩ := formatFixed_shape num p hp
  obtain ⟨g, hg, hgne, hglast, hgdig⟩ :=
    removeTrailingZeros_shape (formatFixed num p) a f hfmt hf
  refine ⟨P, num, a, f, g, hP, hnum, hfmt, hflen, ?_, ?_, hgne, hglast, hgdig⟩
  · intro c hc
    rcases ha c hc with hd | hd
    · exact isDigit_ne_dot c hd
    · rw [hd]; decide
  · rw [hexp]; exact hg

/-- Witness for `c4_trailing_zero_form` at the concrete input
`generate(28, "1.5", 1)`, whose record is `(2, expected "1.5")`. -/
theorem c4_trailing_zero_form_witness :
    (1 ≤ 1 ∧
      generate 28 "1.5" 1 none none = some (2, ⟨"1.5", 1, "1.5", none, none⟩)) ∧
    ∃ P num a f g, parse "1.5" = some P ∧ calculate_number 28 P = some num ∧
      (formatFixed num 1).toList = a ++ '.' :: f ∧ f.length = 1 ∧
      (∀ c ∈ a, c ≠ '.') ∧
      (TestCase.mk "1.5" 1 "1.5" none none).expected.toList = a ++ '.' :: g ∧ g ≠ [] ∧
      (g = ['0'] ∨ g.getLast? ≠ some '0') ∧ (∀ c ∈ g, c.isDigit) :=
  ⟨⟨by decide, by decide⟩,
    c4_trailing_zero_form 28 "1.5" 1 none none 2 ⟨"1.5", 1, "1.5", none, none⟩
      (by decide) (by decide)⟩

/-- Claim C5.  Malformed input is NOT surfaced as a typed failure by the
generation pipeline (`TestCaseGenerator.generate` has no exception handler):
a literal with two decimal points is silently coerced (the third dot-part is
dropped, "1.2.3" becomes 1.2), a literal with two exponent markers is
silently coerced (the third e-part is dropped, "1.2e3e4" becomes 1.2e3), and
a non-digit mantissa crashes with an unhandled InvalidOperation (`none`)
rather than producing the "Invalid input" sentinel. -/
theorem c5_malformed_input_mishandled :
    generate 28 "1.2.3" 5 none none = some (6, ⟨"1.2.3", 5, "1.2", none, none⟩) ∧
    generate 28 "1.2e3e4" 2 none none = some (6, ⟨"1.2e3e4", 2, "1200.0", none, none⟩) ∧
    generate 28 "abc" 5 none none = none := by
  refine ⟨by decide, by decide, by decide⟩

/-- Claim C6.  The special-value catalog does NOT produce sentinel records:
`generate("CUSTOM_INFINITY", 0, ...)` reaches the Decimal constructor with
the string "custom_infinity." and raises an unhandled InvalidOperation
(modelled as `none`), so `generate_special_cases` crashes on its first
literal instead of returning records. -/
theorem c6_special_cases_crash :
    generate_special_cases 28 = none ∧
    generate 28 "CUSTOM_INFINITY" 0 none none = none := by
  refine ⟨by decide, by decide⟩

/-- Claim C7.  Under any context precision of at least 3 significant digits
(the fresh-process default is 28; 3 suffice to keep the mantissa 1.23 exact
through the multiply), `generate("1.23e10", 15, ...)` renders
"12300000000.000000000000000" at 15 fractional digits and strips it to the
expected string "12300000000.0". -/
theorem c7_exponent_rescaling (ctx : Nat) (h : 3 ≤ ctx) :
    generate ctx "1.23e10" 15 none none =
      some (26, ⟨"1.23e10", 15, "12300000000.0", none, none⟩) ∧
    formatFixed (decMul ctx ⟨false, 123, -2⟩ (pow10 10)) 15 =
      "12300000000.000000000000000" := by
  have hmul : decMul ctx ⟨false, 123, -2⟩ (pow10 10) = ⟨false, 123, 8⟩ := by
    show roundSig ctx ⟨xor false false, 123 * 1, -2 + 10⟩ = ⟨false, 123, 8⟩
    have he : (⟨xor false false, 123 * 1, -2 + 10⟩ : DecF) = ⟨false, 123, 8⟩ := by decide
    rw [he]
    refine roundSig_eq_self ctx ⟨false, 123, 8⟩ ?_
    have h3 : numDigits (⟨false, 123, 8⟩ : DecF).coeff = 3 := by decide
    omega
  have hcalc : calculate_number ctx ⟨"1", "23", 10⟩ = some ⟨false, 123, 8⟩ := by
    unfold calculate_number
    rw [show decFromString ("1" ++ "." ++ "23") = some ⟨false, 123, -2⟩ from by decide]
    rw [Option.map_some']
    rw [show (⟨"1", "23", 10⟩ : Parsed).exponent = 10 from rfl]
    rw [hmul]
  constructor
  · unfold generate
    rw [show parse "1.23e10" = some ⟨"1", "23", 10⟩ from by decide]
    rw [Option.some_bind, hcalc, Option.some_bind]
    decide
  · rw [hmul]
    decide

/-- Witness for `c7_exponent_rescaling` at the fresh-process context
precision 28. -/
theorem c7_exponent_rescaling_witness :
    3 ≤ 28 ∧
    (generate 28 "1.23e10" 15 none none =
        some (26, ⟨"1.23e10", 15, "12300000000.0", none, none⟩) ∧
      formatFixed (decMul 28 ⟨false, 123, -2⟩ (pow10 10)) 15 =
        "12300000000.000000000000000") :=
  ⟨by decide, c7_exponent_rescaling 28 (by decide)⟩

/-- Claim C8.  Whenever a verification batch completes (every re-generation
succeeds, i.e. none of the stored inputs crashes the generator), the
verdict list has one entry per record, and the i-th verdict is exactly the
byte-for-byte string equality of the i-th record's stored expected string
with the expected string re-generated from that record's own input fields
(at the context precision the preceding re-generations left) — in
particular a mismatch (false verdict) never stops the remaining records
from being processed. -/
theorem c8_verify_batch (ctx : Nat) (cs : List TestCase) (ctxf : Nat) (rs : List Bool)
    (h : verify ctx cs = some (ctxf, rs)) :
    rs.length = cs.length ∧
    ∀ i (hi : i < cs.length), ∃ ci ci2 regen,
      ctxAt ctx cs i = some ci ∧
      generate ci (cs.get ⟨i, hi⟩).num_str (cs.get ⟨i, hi⟩).precision
        (cs.get ⟨i, hi⟩).radix (cs.get ⟨i, hi⟩).base = some (ci2, regen) ∧
      rs.get? i = some ((cs.get ⟨i, hi⟩).expected == regen.expected) := by
  induction cs generalizing ctx ctxf rs with
  | nil =>
    unfold verify at h
    have hinj := Option.some.inj h
    injection hinj with hctx hrs
    constructor
    · rw [← hrs]; rfl
    · intro i hi
      exact absurd hi (by simp)
  | cons tc rest ih =>
    unfold verify at h
    obtain ⟨pr, hg, h⟩ := Option.bind_eq_some.mp h
    obtain ⟨pr2, hv, h⟩ := Option.bind_eq_some.mp h
    obtain ⟨ctx1, regen⟩ := pr
    obtain ⟨ctx2, verdicts⟩ := pr2
    have hinj := Option.some.inj h
    injection hinj with hctx hrs
    obtain ⟨ihlen, ihall⟩ := ih ctx1 ctx2 verdicts hv
    constructor
    · rw [← hrs, List.length_cons, List.length_cons, ihlen]
    · intro i hi
      match i with
      | 0 =>
        refine ⟨ctx, ctx1, regen, rfl, hg, ?_⟩
        rw [← hrs]
        rfl
      | Nat.succ i =>
        have hi2 : i < rest.length := by
          rw [List.length_cons] at hi
          omega
        obtain ⟨ci, ci2, rg, h1, h2, h3⟩ := ihall i hi2
        refine ⟨ci, ci2, rg, ?_, h2, ?_⟩
        · unfold ctxAt
          rw [hg, Option.some_bind]
          exact h1
        · rw [← hrs]
          exact h3

/-- Witness for `c8_verify_batch`: a two-record batch whose second record is
corrupted verifies to the full verdict list [true, false] — the mismatch is
reported and does not stop the batch. -/
theorem c8_verify_batch_witness :
    verify 28 [⟨"7", 0, "7", none, none⟩, ⟨"1.2345", 2, "1.23", none, none⟩] =
      some (3, [true, false]) ∧
    ([true, false] : List Bool).length =
      ([⟨"7", 0, "7", none, none⟩,
        ⟨"1.2345", 2, "1.23", none, none⟩] : List TestCase).length :=
  ⟨by decide,
    (c8_verify_batch 28
      [⟨"7", 0, "7", none, none⟩, ⟨"1.2345", 2, "1.23", none, none⟩]
      3 [true, false] (by decide)).1⟩

/-- Claim C9.  The pi catalog does produce one record per precision 1..max,
but the claimed rounding relation between precision levels fails: from the
fresh-process context, the records for max = 3 carry expected strings
"3.1", "3.1", "3.14" — the precision-2 record has only one fractional digit
(its multiply ran at the context precision 2 left by the precision-1
record) — while re-rendering the precision-3 record "3.14" at 2 fractional
digits under round-half-to-even leaves "3.14", not "3.1". -/
theorem c9_pi_not_monotone :
    (generate_pi_approximations 28 3).map
      (fun r => r.2.map (fun tc => (tc.precision, tc.expected))) =
      some [(1, "3.1"), (2, "3.1"), (3, "3.14")] ∧
    specRoundFrac "3.14" 2 = some "3.14" ∧ ("3.14" : String) ≠ "3.1" := by
  refine ⟨by decide, by decide, by decide⟩

/-- Claim C10.  A successful `generate` call leaves the process-wide context
precision at `precision + max(exponent, 0) + 1`, where `exponent` is the one
parsed from `num_str`; in this model the returned context is exactly the one
the next call (and in particular the next rescale step) receives. -/
theorem c10_context_leak (ctx : Nat) (s : String) (p : Nat) (r b : Option Int)
    (ctx2 : Nat) (tc : TestCase) (h : generate ctx s p r b = some (ctx2, tc)) :
    ∃ P, parse s = some P ∧ ctx2 = p + (max P.exponent 0).toNat + 1 := by
  unfold generate at h
  obtain ⟨P, hP, h⟩ := Option.bind_eq_some.mp h
  obtain ⟨num, hnum, h⟩ := Option.bind_eq_some.mp h
  refine ⟨P, hP, ?_⟩
  have h1 := congrArg Prod.fst (Option.some.inj h)
  simp only [format_number] at h1
  exact h1.symm

/-- Witness for `c10_context_leak`: `generate(28, "1.23e10", 15)` leaves the
context precision at `15 + max(10, 0) + 1 = 26`. -/
theorem c10_context_leak_witness :
    generate 28 "1.23e10" 15 none none =
      some (26, ⟨"1.23e10", 15, "12300000000.0", none, none⟩) ∧
    ∃ P, parse "1.23e10" = some P ∧ 26 = 15 + (max P.exponent 0).toNat + 1 :=
  ⟨by decide,
    c10_context_leak 28 "1.23e10" 15 none none 26
      ⟨"1.23e10", 15, "12300000000.0", none, none⟩ (by decide)⟩

end Arbnumbra
